import Mathlib

/-!
Shallow embedding of the ClickHouse client core (statement formatting,
parameter merging, insert orchestration, ping forwarding) together with
proofs of its specified properties.

Strings are modelled as Lean strings (lists of characters); JavaScript
objects whose keys are looked up are modelled as partial maps; the
asynchronous connection calls are modelled by explicit result values, and
the sequence of collaborator invocations performed by an operation is
modelled as an explicit action trace.
-/

/-- Characters stripped by the JavaScript trim: WhiteSpace and
LineTerminator code points (the ones relevant to statement text). -/
def isJsWhitespace (c : Char) : Bool :=
  c = ' ' || c = '\t' || c = '\n' || c = '\r' ||
  c = '\x0b' || c = '\x0c' || c = '\u00A0' || c = '\uFEFF'

/-- JavaScript trim: drop leading and trailing whitespace. -/
def jsTrim (s : String) : String :=
  String.mk (((s.data.dropWhile isJsWhitespace).reverse.dropWhile isJsWhitespace).reverse)

/-- The backward scan of removeTrailingSemi: called with index i, it
inspects character i - 1; it returns the loop-break index (the position
just after the last non-semicolon character found), or none when the
loop runs to completion without breaking. -/
def lastNonSemiLoop (cs : List Char) : Nat → Option Nat
  | 0 => none
  | i + 1 => if cs[i]? ≠ some ';' then some (i + 1) else lastNonSemiLoop cs i

/-- The value of the lastNonSemiIdx variable after the loop: it starts at
query.length and is overwritten only if the loop breaks. -/
def lastNonSemiIdx (query : String) : Nat :=
  (lastNonSemiLoop query.data query.length).getD query.length

/-- removeTrailingSemi from the source: slice off the trailing run of
semicolons when the loop found a non-semicolon character short of the
end; otherwise return the input unchanged. -/
def removeTrailingSemi (query : String) : String :=
  if lastNonSemiIdx query ≠ query.length then
    String.mk (query.data.take (lastNonSemiIdx query))
  else query

/-- formatQuery from the source: trim, strip trailing semicolons, then
append the FORMAT clause. -/
def formatQuery (query : String) (format : String) : String :=
  removeTrailingSemi (jsTrim query) ++ " \nFORMAT " ++ format

/-- The statement built by ClickHouseClient.query: the format parameter
defaults to JSON via the nullish-coalescing operator. -/
def clientQueryStatement (query : String) (format : Option String) : String :=
  formatQuery query (format.getD "JSON")

/-- The statement sent by ClickHouseClient.command: trimmed and
semicolon-stripped caller text, nothing appended. -/
def commandStatement (query : String) : String :=
  removeTrailingSemi (jsTrim query)

/-- The statement sent by ClickHouseClient.exec: same normalization as
command, nothing appended. -/
def execStatement (query : String) : String :=
  removeTrailingSemi (jsTrim query)

/-- The values argument of insert: either a concrete array of rows or a
stream-like payload (anything that is not an array). -/
inductive InsertValues (T : Type) where
  | array (rows : List T)
  | stream (id : Nat)
deriving DecidableEq

/-- The columns selector of insert: a plain list of column names, or an
object carrying an except list. -/
inductive InsertColumns where
  | list (cols : List String)
  | except (cols : List String)
deriving DecidableEq

/-- The parameters of an insert call that affect statement building and
the collaborator calls. -/
structure InsertCall (T : Type) where
  table : String
  values : InsertValues T
  format : Option String
  columns : Option InsertColumns

/-- JavaScript logical-or with a string default: undefined (and the empty
string, which is falsy) fall back to the default. -/
def jsStringOr (s : Option String) (dflt : String) : String :=
  match s with
  | none => dflt
  | some v => if v = "" then dflt else v

/-- getInsertQuery from the source: the columns part is rendered only for
a non-empty list or a non-empty except list; the table name is trimmed. -/
def getInsertQuery (table : String) (columns : Option InsertColumns)
    (format : String) : String :=
  let columnsPart :=
    match columns with
    | some (InsertColumns.list cols) =>
        if cols.length > 0 then " (" ++ String.intercalate ", " cols ++ ")" else ""
    | some (InsertColumns.except cols) =>
        if cols.length > 0 then " (* EXCEPT (" ++ String.intercalate ", " cols ++ "))" else ""
    | none => ""
  "INSERT INTO " ++ jsTrim table ++ columnsPart ++ " FORMAT " ++ format

/-- One observable collaborator invocation made by insert, in order:
encoder validation, encoding, and the connection insert call with the
built statement. -/
inductive InsertAction where
  | validateValues (format : String)
  | encodeValues (format : String)
  | connInsert (query : String)
deriving DecidableEq

/-- The fields of the connection insert result that the client forwards. -/
structure ConnInsertResult where
  query_id : String
  response_headers : List (String × String)
deriving DecidableEq

/-- The insert result returned to the caller. -/
structure InsertResult where
  executed : Bool
  query_id : String
  response_headers : List (String × String)
deriving DecidableEq

/-- ClickHouseClient.insert: empty-array values short-circuit before any
collaborator call; otherwise the format defaults to JSONCompactEachRow,
the encoder validates and encodes with that format, and the connection
insert is invoked with the built statement. The first component is the
ordered trace of collaborator invocations. -/
def clientInsert {T : Type} (p : InsertCall T) (connResult : ConnInsertResult) :
    List InsertAction × InsertResult :=
  match p.values with
  | InsertValues.array [] =>
      ([], { executed := false, query_id := "", response_headers := [] })
  | _ =>
      let format := jsStringOr p.format "JSONCompactEachRow"
      let query := getInsertQuery p.table p.columns format
      ([InsertAction.validateValues format, InsertAction.encodeValues format,
        InsertAction.connInsert query],
       { executed := true, query_id := connResult.query_id,
         response_headers := connResult.response_headers })

/-- A ClickHouse settings object: a partial map from setting name to
value. -/
def ClickHouseSettings (V : Type) := String → Option V

/-- OpenTelemetry trace propagation headers. -/
structure OTelHeaders where
  traceparent : Option String
  tracestate : Option String
deriving DecidableEq

/-- The per-call auth override. -/
inductive AuthParams where
  | userPassword (username password : String)
  | accessToken (token : String)
deriving DecidableEq

/-- A role selection: a single role name or a list of role names. -/
inductive RoleParam where
  | one (r : String)
  | many (rs : List String)
deriving DecidableEq

/-- BaseQueryParams: the per-call parameters shared by all operations. -/
structure BaseQueryParams (V : Type) where
  clickhouse_settings : Option (ClickHouseSettings V)
  query_params : Option (List (String × String))
  abort_signal : Option Nat
  query_id : Option String
  session_id : Option String
  role : Option RoleParam
  auth : Option AuthParams
  opentelemetry_headers : Option OTelHeaders

/-- The client-level fields consulted by withClientQueryParams. -/
structure ClientState (V : Type) where
  clientClickHouseSettings : ClickHouseSettings V
  sessionId : Option String
  role : Option RoleParam

/-- JavaScript object spread over settings maps: per-call keys override
client-level keys; spreading an undefined per-call map is a no-op. -/
def objectSpread {V : Type} (base : ClickHouseSettings V)
    (onTop : Option (ClickHouseSettings V)) : ClickHouseSettings V :=
  fun k =>
    match onTop with
    | none => base k
    | some m =>
      match m k with
      | some v => some v
      | none => base k

/-- withClientQueryParams from the source: settings are spread-merged,
session id and role use nullish coalescing against the client-level
values, and every other field passes through from the call. -/
def withClientQueryParams {V : Type} (client : ClientState V)
    (params : BaseQueryParams V) : BaseQueryParams V :=
  { clickhouse_settings :=
      some (objectSpread client.clientClickHouseSettings params.clickhouse_settings)
    query_params := params.query_params
    abort_signal := params.abort_signal
    query_id := params.query_id
    session_id :=
      match params.session_id with
      | some s => some s
      | none => client.sessionId
    role :=
      match params.role with
      | some r => some r
      | none => client.role
    auth := params.auth
    opentelemetry_headers := params.opentelemetry_headers }

/-- The result of the connection ping probe: success, or failure with the
cause captured in the error field. -/
inductive ConnPingResult where
  | success
  | failure (error : String)
deriving DecidableEq

/-- ClickHouseClient.ping: awaits the connection ping and returns its
result; a rejected promise (modelled as Except.error) would propagate. -/
def clientPing (connPing : Except String ConnPingResult) :
    Except String ConnPingResult :=
  match connPing with
  | Except.ok r => Except.ok r
  | Except.error e => Except.error e

/-- Example client-level settings map from the specification example:
max_threads set to 4. -/
def exampleClientSettings : ClickHouseSettings Nat :=
  fun k => if k = "max_threads" then some 4 else none

/-- Example per-call settings map from the specification example:
max_threads set to 8 and readonly set to 1. -/
def exampleCallSettings : ClickHouseSettings Nat :=
  fun k => if k = "max_threads" then some 8 else if k = "readonly" then some 1 else none

theorem lastNonSemiLoop_skip (cs : List Char) (m j : Nat) (hmj : m ≤ j)
    (h : ∀ i, m ≤ i → i < j → cs[i]? = some ';') :
    lastNonSemiLoop cs j = lastNonSemiLoop cs m := by
  induction j with
  | zero => rw [Nat.le_zero.mp hmj]
  | succ j ih =>
    rcases Nat.eq_or_lt_of_le hmj with heq | hlt
    · rw [heq]
    · have hm : m ≤ j := Nat.lt_succ_iff.mp hlt
      have hj : cs[j]? = some ';' := h j hm (Nat.lt_succ_self j)
      have hstep : lastNonSemiLoop cs (j + 1) = lastNonSemiLoop cs j := by
        simp [lastNonSemiLoop, hj]
      rw [hstep, ih hm (fun i him hij => h i him (Nat.lt_succ_of_lt hij))]

theorem lastNonSemiLoop_boundary (pre rest : List Char) (hpre : pre ≠ [])
    (hlast : pre.getLast? ≠ some ';') :
    lastNonSemiLoop (pre ++ rest) pre.length = some pre.length := by
  obtain ⟨p, hp⟩ : ∃ p, pre.length = p + 1 :=
    ⟨pre.length - 1, by have := List.length_pos.mpr hpre; omega⟩
  have hd : (pre ++ rest)[p]? = pre.getLast? := by
    rw [List.getElem?_append_left (by omega), List.getLast?_eq_getElem?]
    congr 1
    omega
  rw [hp]
  simp only [lastNonSemiLoop]
  rw [if_pos (by rw [hd]; exact hlast)]

theorem lastNonSemiLoop_some_semis (cs : List Char) (j i : Nat)
    (h : lastNonSemiLoop cs j = some i) :
    ∀ m, i ≤ m → m < j → cs[m]? = some ';' := by
  induction j with
  | zero => simp [lastNonSemiLoop] at h
  | succ j ih =>
    by_cases hc : cs[j]? = some ';'
    · have h' : lastNonSemiLoop cs j = some i := by
        simpa [lastNonSemiLoop, hc] using h
      intro m him hmj
      have : m < j ∨ m = j := by omega
      rcases this with hlt | heq
      · exact ih h' m him hlt
      · rw [heq]; exact hc
    · have h' : i = j + 1 := by
        simp only [lastNonSemiLoop] at h
        rw [if_pos hc] at h
        exact (Option.some.inj h).symm
      intro m him hmj
      omega

theorem removeTrailingSemi_suffix (s : String) :
    ∃ t : List Char, s.data = (removeTrailingSemi s).data ++ t ∧ ∀ c ∈ t, c = ';' := by
  by_cases h : lastNonSemiIdx s ≠ s.length
  · refine ⟨s.data.drop (lastNonSemiIdx s), ?_, ?_⟩
    · rw [removeTrailingSemi, if_pos h]
      exact (List.take_append_drop _ _).symm
    · intro c hc
      obtain ⟨n, hn⟩ := List.mem_iff_getElem?.mp hc
      rw [List.getElem?_drop] at hn
      obtain ⟨hlt, _⟩ := List.getElem?_eq_some_iff.mp hn
      obtain ⟨idx, hidx⟩ : ∃ idx, lastNonSemiLoop s.data s.length = some idx := by
        cases hcase : lastNonSemiLoop s.data s.length with
        | none => exact absurd (by rw [lastNonSemiIdx, hcase]; rfl) h
        | some v => exact ⟨v, rfl⟩
      have hidxval : lastNonSemiIdx s = idx := by
        rw [lastNonSemiIdx, hidx]; rfl
      have hsemi := lastNonSemiLoop_some_semis s.data s.length idx hidx
        (lastNonSemiIdx s + n) (by omega) (by
          have : s.length = s.data.length := rfl
          omega)
      rw [hn] at hsemi
      exact Option.some.inj hsemi
  · refine ⟨[], ?_, by simp⟩
    rw [removeTrailingSemi, if_neg h, List.append_nil]

theorem jsTrim_all_semi (k : Nat) :
    jsTrim (String.mk (List.replicate k ';')) = String.mk (List.replicate k ';') := by
  have hdrop : (List.replicate k ';').dropWhile isJsWhitespace = List.replicate k ';' := by
    cases k with
    | zero => rfl
    | succ k => simp [List.replicate_succ, List.dropWhile_cons, isJsWhitespace]
  rw [jsTrim]
  simp only [hdrop]
  rw [List.reverse_replicate, hdrop, List.reverse_replicate]

theorem removeTrailingSemi_all_semi (k : Nat) :
    removeTrailingSemi (String.mk (List.replicate k ';')) = String.mk (List.replicate k ';') := by
  have hlen : (String.mk (List.replicate k ';')).length = k := by
    simp [String.length_mk]
  have hloop : lastNonSemiLoop (List.replicate k ';') k = none := by
    rw [lastNonSemiLoop_skip (List.replicate k ';') 0 k (Nat.zero_le k)
      (fun i h0 hik => List.getElem?_replicate_of_lt hik)]
    rfl
  have hidx : lastNonSemiIdx (String.mk (List.replicate k ';')) = k := by
    rw [lastNonSemiIdx, hlen]
    show (lastNonSemiLoop (List.replicate k ';') k).getD k = k
    rw [hloop]
    rfl
  rw [removeTrailingSemi, hidx, hlen, if_neg (by omega)]

theorem append_format_json (s : String) :
    (s ++ " \nFORMAT ") ++ "JSON" = s ++ " \nFORMAT JSON" := by
  apply String.ext
  simp [List.append_assoc]

theorem removeTrailingSemi_of_suffix_run (pre : List Char) (k : Nat)
    (hk : 1 ≤ k) (hpre : pre ≠ []) (hlast : pre.getLast? ≠ some ';') :
    removeTrailingSemi (String.mk (pre ++ List.replicate k ';')) = String.mk pre := by
  have hdata : (String.mk (pre ++ List.replicate k ';')).data = pre ++ List.replicate k ';' := rfl
  have hlen : (String.mk (pre ++ List.replicate k ';')).length = pre.length + k := by
    simp [String.length_mk]
  have hloop : lastNonSemiLoop (pre ++ List.replicate k ';') (pre.length + k)
      = some pre.length := by
    rw [lastNonSemiLoop_skip (pre ++ List.replicate k ';') pre.length (pre.length + k)
      (Nat.le_add_right _ _) (fun i him hik => by
        rw [List.getElem?_append_right him]
        exact List.getElem?_replicate_of_lt (by omega))]
    exact lastNonSemiLoop_boundary pre (List.replicate k ';') hpre hlast
  have hidx : lastNonSemiIdx (String.mk (pre ++ List.replicate k ';')) = pre.length := by
    rw [lastNonSemiIdx, hlen]
    show (lastNonSemiLoop (pre ++ List.replicate k ';') (pre.length + k)).getD _ = pre.length
    rw [hloop]
    rfl
  rw [removeTrailingSemi, hidx, hlen, if_pos (by omega)]
  show String.mk ((pre ++ List.replicate k ';').take pre.length) = String.mk pre
  rw [List.take_left]

/-- Claim C1, counterexample: the claim as stated covers every statement
text ending in a separator, but on a text consisting solely of
semicolons the trim returns the input unchanged instead of removing the
maximal trailing run (which would leave the empty string). -/
theorem claim_c1_counterexample :
    removeTrailingSemi ";;;" = ";;;" ∧ removeTrailingSemi ";;;" ≠ "" := by
  decide

/-- Claim C1, amended: for every statement text that contains at least
one non-separator character and ends in one or more semicolons, the
trailing-separator trim removes exactly the maximal trailing run of
semicolons and nothing else, leaving all preceding content (including
earlier semicolon occurrences) intact; in particular the two
specification examples hold. -/
theorem claim_c1_trailing_trim :
    (∀ (pre : List Char) (k : Nat), 1 ≤ k → pre ≠ [] → pre.getLast? ≠ some ';' →
      removeTrailingSemi (String.mk (pre ++ List.replicate k ';')) = String.mk pre)
    ∧ removeTrailingSemi "SELECT 1;;;" = "SELECT 1"
    ∧ removeTrailingSemi "SELECT 1;x;" = "SELECT 1;x" :=
  ⟨removeTrailingSemi_of_suffix_run, by decide, by decide⟩

/-- Claim C1 witness: the amended theorem applied to the concrete text
SELECT 1 followed by three semicolons. -/
theorem claim_c1_trailing_trim_witness :
    removeTrailingSemi (String.mk ("SELECT 1".data ++ List.replicate 3 ';'))
      = String.mk "SELECT 1".data :=
  claim_c1_trailing_trim.1 "SELECT 1".data 3 (by decide) (by decide) (by decide)

/-- Claim C2: an insert call whose values parameter is an empty array
returns the not-executed result with empty query id and empty response
headers, and performs no encoder validation, no encoding, and no
connection call (the action trace is empty). -/
theorem claim_c2_insert_empty_short_circuit {T : Type} (p : InsertCall T)
    (r : ConnInsertResult) (h : p.values = InsertValues.array []) :
    clientInsert p r
      = ([], { executed := false, query_id := "", response_headers := [] }) := by
  simp [clientInsert, h]

/-- Claim C2 witness: the short-circuit theorem applied to a concrete
insert call with an empty array of rows. -/
theorem claim_c2_witness :
    clientInsert (T := Nat) ⟨"t", InsertValues.array [], some "JSONEachRow", none⟩ ⟨"srv", []⟩
      = ([], { executed := false, query_id := "", response_headers := [] }) :=
  claim_c2_insert_empty_short_circuit _ _ rfl

/-- Claim C3: the effective settings are the key-wise shallow merge in
which a per-call key overrides the client-level value for that key only,
the merge is idempotent, and the specification's concrete example
merges as stated. -/
theorem claim_c3_settings_merge :
    (∀ (V : Type) (client : ClientState V) (params : BaseQueryParams V),
      (withClientQueryParams client params).clickhouse_settings
        = some (objectSpread client.clientClickHouseSettings params.clickhouse_settings))
    ∧ (∀ (V : Type) (c pm : ClickHouseSettings V) (k : String) (v : V),
        pm k = some v → objectSpread c (some pm) k = some v)
    ∧ (∀ (V : Type) (c pm : ClickHouseSettings V) (k : String),
        pm k = none → objectSpread c (some pm) k = c k)
    ∧ (∀ (V : Type) (c pm : ClickHouseSettings V),
        objectSpread (objectSpread c (some pm)) (some pm) = objectSpread c (some pm))
    ∧ (∀ k : String,
        objectSpread exampleClientSettings (some exampleCallSettings) k
          = exampleCallSettings k) := by
  refine ⟨fun V client params => rfl, ?_, ?_, ?_, ?_⟩
  · intro V c pm k v h
    simp [objectSpread, h]
  · intro V c pm k h
    simp [objectSpread, h]
  · intro V c pm
    funext k
    simp only [objectSpread]
    cases h : pm k <;> simp [h]
  · intro k
    by_cases h1 : k = "max_threads"
    · simp [objectSpread, exampleClientSettings, exampleCallSettings, h1]
    · by_cases h2 : k = "readonly"
      · simp [objectSpread, exampleClientSettings, exampleCallSettings, h1, h2]
      · simp [objectSpread, exampleClientSettings, exampleCallSettings, h1, h2]

/-- Claim C3 witness: in the specification's example, the overridden key
takes the per-call value 8 and the per-call-only key takes 1. -/
theorem claim_c3_witness :
    objectSpread exampleClientSettings (some exampleCallSettings) "max_threads" = some 8
    ∧ objectSpread exampleClientSettings (some exampleCallSettings) "readonly" = some 1 :=
  ⟨claim_c3_settings_merge.2.1 Nat exampleClientSettings exampleCallSettings
      "max_threads" 8 (by decide),
   claim_c3_settings_merge.2.1 Nat exampleClientSettings exampleCallSettings
      "readonly" 1 (by decide)⟩

/-- Claim C4: an insert call with a non-empty dataset, an except-columns
selector for column b, and no format, generates exactly the statement
INSERT INTO t (* EXCEPT (b)) FORMAT JSONCompactEachRow, and the encoder
validate and encode actions with that same default format precede the
connection insert action in the trace. -/
theorem claim_c4_insert_except_default_format {T : Type} (p : InsertCall T)
    (r : ConnInsertResult) (hv : p.values ≠ InsertValues.array [])
    (hf : p.format = none) (ht : p.table = "t")
    (hc : p.columns = some (InsertColumns.except ["b"])) :
    (clientInsert p r).1
      = [InsertAction.validateValues "JSONCompactEachRow",
         InsertAction.encodeValues "JSONCompactEachRow",
         InsertAction.connInsert "INSERT INTO t (* EXCEPT (b)) FORMAT JSONCompactEachRow"] := by
  cases hval : p.values with
  | array rows =>
    cases rows with
    | nil => exact absurd hval hv
    | cons a as =>
      simp only [clientInsert, hval, hf, ht, hc]
      decide
  | stream i =>
    simp only [clientInsert, hval, hf, ht, hc]
    decide

/-- Claim C4 witness: the theorem applied to a concrete insert call with
one row, no format, and the except-b selector. -/
theorem claim_c4_witness :
    (clientInsert (T := Nat) ⟨"t", InsertValues.array [1], none,
        some (InsertColumns.except ["b"])⟩ ⟨"q1", []⟩).1
      = [InsertAction.validateValues "JSONCompactEachRow",
         InsertAction.encodeValues "JSONCompactEachRow",
         InsertAction.connInsert "INSERT INTO t (* EXCEPT (b)) FORMAT JSONCompactEachRow"] :=
  claim_c4_insert_except_default_format _ _ (by decide) rfl rfl rfl

/-- Claim C5: a query call that omits the format defaults to JSON and
the statement is the trimmed, separator-stripped query text followed by
a space, a newline, and the FORMAT JSON clause; in particular the
statement for SELECT 1 is as the specification states. -/
theorem claim_c5_query_default_format :
    (∀ q : String,
      clientQueryStatement q none = removeTrailingSemi (jsTrim q) ++ " \nFORMAT JSON")
    ∧ clientQueryStatement "SELECT 1" none = "SELECT 1 \nFORMAT JSON" := by
  constructor
  · intro q
    exact append_format_json (removeTrailingSemi (jsTrim q))
  · decide

/-- Claim C6: an empty inclusion list and an empty except set are both
ignored by the insert statement builder — the generated statement is
identical to the one generated with no columns selector, and carries no
column clause. -/
theorem claim_c6_empty_selector_ignored :
    (∀ (table fmt : String),
      getInsertQuery table (some (InsertColumns.list [])) fmt
        = getInsertQuery table none fmt)
    ∧ (∀ (table fmt : String),
      getInsertQuery table (some (InsertColumns.except [])) fmt
        = getInsertQuery table none fmt)
    ∧ getInsertQuery "t" (some (InsertColumns.list [])) "JSONCompactEachRow"
        = "INSERT INTO t FORMAT JSONCompactEachRow"
    ∧ getInsertQuery "t" (some (InsertColumns.except [])) "JSONCompactEachRow"
        = "INSERT INTO t FORMAT JSONCompactEachRow" := by
  refine ⟨fun table fmt => rfl, fun table fmt => rfl, by decide, by decide⟩

/-- Claim C7: the effective session id and role are the per-call value
when present and otherwise the client-level value, while query
parameters, cancellation signal, query id, auth override, and trace
headers pass through from the per-call input unchanged. -/
theorem claim_c7_override_and_passthrough :
    ∀ (V : Type) (client : ClientState V) (params : BaseQueryParams V),
      (∀ s, params.session_id = some s →
        (withClientQueryParams client params).session_id = some s)
      ∧ (params.session_id = none →
        (withClientQueryParams client params).session_id = client.sessionId)
      ∧ (∀ r, params.role = some r →
        (withClientQueryParams client params).role = some r)
      ∧ (params.role = none →
        (withClientQueryParams client params).role = client.role)
      ∧ (withClientQueryParams client params).query_params = params.query_params
      ∧ (withClientQueryParams client params).abort_signal = params.abort_signal
      ∧ (withClientQueryParams client params).query_id = params.query_id
      ∧ (withClientQueryParams client params).auth = params.auth
      ∧ (withClientQueryParams client params).opentelemetry_headers
          = params.opentelemetry_headers := by
  intro V client params
  refine ⟨?_, ?_, ?_, ?_, rfl, rfl, rfl, rfl, rfl⟩
  · intro s h
    simp [withClientQueryParams, h]
  · intro h
    simp [withClientQueryParams, h]
  · intro r h
    simp [withClientQueryParams, h]
  · intro h
    simp [withClientQueryParams, h]

/-- Claim C7 witness: with a concrete client and call, a per-call
session id wins, and an absent per-call session id falls back to the
client-level one. -/
theorem claim_c7_witness :
    (withClientQueryParams (V := Nat)
        ⟨fun _ => none, some "client-session", some (RoleParam.one "admin")⟩
        ⟨none, none, none, none, some "call-session", none, none, none⟩).session_id
      = some "call-session"
    ∧ (withClientQueryParams (V := Nat)
        ⟨fun _ => none, some "client-session", some (RoleParam.one "admin")⟩
        ⟨none, none, none, none, none, none, none, none⟩).session_id
      = some "client-session" :=
  ⟨(claim_c7_override_and_passthrough Nat _ _).1 "call-session" rfl,
   (claim_c7_override_and_passthrough Nat _ _).2.1 rfl⟩

/-- Claim C8: the statement sent by command and by exec is exactly the
caller's text after whitespace trimming and trailing-separator
stripping, and nothing is appended: the sent statement extends to the
trimmed text only by a (possibly empty) run of semicolons. -/
theorem claim_c8_command_exec_as_is :
    ∀ q : String,
      commandStatement q = removeTrailingSemi (jsTrim q)
      ∧ execStatement q = removeTrailingSemi (jsTrim q)
      ∧ ∃ t : List Char, (jsTrim q).data = (commandStatement q).data ++ t
          ∧ ∀ c ∈ t, c = ';' :=
  fun q => ⟨rfl, rfl, removeTrailingSemi_suffix (jsTrim q)⟩

/-- Claim C9: under the connection contract that ping never raises (its
outcome arrives as a resolved value), the client's ping returns that
outcome unchanged for every outcome; in particular a connectivity
failure is returned as a failure result carrying its cause, not thrown. -/
theorem claim_c9_ping_never_raises :
    ∀ outcome : ConnPingResult,
      clientPing (Except.ok outcome) = Except.ok outcome
      ∧ ∀ e : String,
        clientPing (Except.ok (ConnPingResult.failure e))
          = Except.ok (ConnPingResult.failure e) :=
  fun _ => ⟨rfl, fun _ => rfl⟩

/-- Claim C10: a statement text consisting entirely of semicolons is
returned unchanged by the trailing-separator trim, so command and exec
send it as-is and query sends it with only the FORMAT clause appended,
the full run of separators still present. -/
theorem claim_c10_all_semi :
    ∀ k : Nat,
      removeTrailingSemi (String.mk (List.replicate k ';'))
        = String.mk (List.replicate k ';')
      ∧ commandStatement (String.mk (List.replicate k ';'))
        = String.mk (List.replicate k ';')
      ∧ execStatement (String.mk (List.replicate k ';'))
        = String.mk (List.replicate k ';')
      ∧ clientQueryStatement (String.mk (List.replicate k ';')) none
        = String.mk (List.replicate k ';') ++ " \nFORMAT JSON" := by
  intro k
  have h1 := removeTrailingSemi_all_semi k
  have ht := jsTrim_all_semi k
  refine ⟨h1, ?_, ?_, ?_⟩
  · show removeTrailingSemi (jsTrim (String.mk (List.replicate k ';'))) = _
    rw [ht, h1]
  · show removeTrailingSemi (jsTrim (String.mk (List.replicate k ';'))) = _
    rw [ht, h1]
  · show removeTrailingSemi (jsTrim (String.mk (List.replicate k ';'))) ++ " \nFORMAT " ++ "JSON" = _
    rw [ht, h1, append_format_json]
